import Mathlib

/-!
Verification development for the zarrita codec pipeline
(src/zarrita/codecs.py), as a shallow embedding in Lean 4.

Arrays are modelled logically: an NDArr keeps its dtype, its shape and
the list of its elements in row-major (C) enumeration order, each element
being the list of the bytes that back it.  Two boolean fields track the
C-contiguity and F-contiguity flags of the backing memory abstractly:
only the blosc encoder inspects them, the rules that set them on fresh
views approximate numpy, and no theorem depends on their exact value.
Fallible numpy operations (reshape with a mismatched size, transpose with
mismatched axes, view with an incompatible itemsize) return Option, with
none standing for the raised exception.
-/

namespace Zarrita

/-- Host or configured byte order, the value set of sys.byteorder and of the
endian codec configuration. -/
inductive ByteOrder where
  | little
  | big
deriving DecidableEq

/-- Byte-order character of a numpy dtype: lt and gt are the explicit
little/big characters, native is the equals character, ignore is the pipe
character of single-byte dtypes. -/
inductive BOFlag where
  | lt
  | gt
  | native
  | ignore
deriving DecidableEq

/-- numpy dtype: a kind tag (such as i4 or u1), the element byte width, and
the byte-order character. -/
structure Dtype where
  kind : String
  itemsize : Nat
  flag : BOFlag
deriving DecidableEq

/-- numpy dtype.newbyteorder applied to a little/big argument: force the
byte-order character to the explicit character for that order, keeping kind
and itemsize. -/
def Dtype.newbyteorder (d : Dtype) (bo : ByteOrder) : Dtype :=
  { d with flag := match bo with | .little => .lt | .big => .gt }

/-- Logical model of a numpy ndarray: dtype, shape, elements listed in
row-major (C) enumeration order (each element is its list of backing bytes),
and the two contiguity flags of the backing memory. -/
structure NDArr where
  dtype : Dtype
  shape : List Nat
  elems : List (List Nat)
  cContig : Bool
  fContig : Bool
deriving DecidableEq

/-- Number of elements of an array, the product of its shape. -/
def NDArr.numel (a : NDArr) : Nat := a.shape.prod

/-- Flat position of a multi-index in column-major (F) order: the first axis
varies fastest. -/
def idxF : List Nat → List Nat → Nat
  | [], _ => 0
  | s0 :: srest, c => c.headD 0 + s0 * idxF srest c.tail

/-- Multi-index of a flat position in column-major (F) order. -/
def coordF : List Nat → Nat → List Nat
  | [], _ => []
  | s0 :: srest, k => (k % s0) :: coordF srest (k / s0)

/-- Flat position of a multi-index in row-major (C) order: the last axis
varies fastest, so it is the F position of the reversed index in the
reversed shape. -/
def idxC (s c : List Nat) : Nat := idxF s.reverse c.reverse

/-- Multi-index of a flat position in row-major (C) order. -/
def coordC (s : List Nat) (k : Nat) : List Nat := (coordF s.reverse k).reverse

/-- Memory layout order selector, the string values C and F of the numpy
order arguments. -/
inductive MemOrder where
  | C
  | F
deriving DecidableEq

/-- Elements of an array listed in row-major (C) order; this is the stored
enumeration, read through getD so that it is total. -/
def takeListC (a : NDArr) : List (List Nat) :=
  (List.range a.numel).map (fun k => a.elems.getD k [])

/-- Elements of an array listed in column-major (F) order. -/
def takeListF (a : NDArr) : List (List Nat) :=
  (List.range a.numel).map (fun m => a.elems.getD (idxC a.shape (coordF a.shape m)) [])

/-- Elements of an array listed in the given order. -/
def takeList : MemOrder → NDArr → List (List Nat)
  | .C, a => takeListC a
  | .F, a => takeListF a

/-- Placement of an order-agnostic element listing into a C enumeration for
shape s, reading the listing in C order: the identity. -/
def placeListC (_s : List Nat) (l : List (List Nat)) : List (List Nat) := l

/-- Placement of an element listing into a C enumeration for shape s, reading
the listing in F order. -/
def placeListF (s : List Nat) (l : List (List Nat)) : List (List Nat) :=
  (List.range s.prod).map (fun k => l.getD (idxF s (coordC s k)) [])

/-- Placement of an element listing into a C enumeration for shape s in the
given order. -/
def placeList : MemOrder → List Nat → List (List Nat) → List (List Nat)
  | .C, s, l => placeListC s l
  | .F, s, l => placeListF s l

/-- Contiguity flags assigned to a freshly reshaped array: an approximation
of the numpy stride flags (rank at most one is both-contiguous, otherwise
the requested order is contiguous); no theorem depends on these values. -/
def contigFlags (s : List Nat) (o : MemOrder) : Bool × Bool :=
  if s.length ≤ 1 then (true, true)
  else (decide (o = MemOrder.C), decide (o = MemOrder.F))

/-- numpy reshape(a, s, order=o): fails unless the element counts agree,
otherwise reads the elements in order o and places them into shape s in
order o. -/
def npReshape (o : MemOrder) (a : NDArr) (s : List Nat) : Option NDArr :=
  if s.prod = a.shape.prod then
    some { dtype := a.dtype, shape := s, elems := placeList o s (takeList o a),
           cContig := (contigFlags s o).1, fContig := (contigFlags s o).2 }
  else none

/-- Boolean test that p is a permutation of the axis indices 0..n-1. -/
def isPermOf (p : List Nat) (n : Nat) : Bool :=
  (p.length == n) && (List.range n).all (fun i => p.count i == 1)

/-- Shape of a transposed array: axis i of the result is axis p(i) of the
source. -/
def permShape (s p : List Nat) : List Nat := p.map (fun i => s.getD i 0)

/-- Source multi-index feeding a destination multi-index of a transpose:
component p(m) of the source index is component m of the destination index.
-/
def permSrcCoord (s p c : List Nat) : List Nat :=
  (List.range s.length).map (fun j => c.getD (p.indexOf j) 0)

/-- numpy transpose(a, p): fails unless p is a permutation of the axes of a;
otherwise a strided view with permuted shape.  The result of a transpose of
rank at least two is in general not contiguous, so the flags are cleared
there. -/
def npTranspose (a : NDArr) (p : List Nat) : Option NDArr :=
  if isPermOf p a.shape.length then
    some { dtype := a.dtype,
           shape := permShape a.shape p,
           elems := (List.range (permShape a.shape p).prod).map
             (fun k => a.elems.getD
               (idxC a.shape (permSrcCoord a.shape p (coordC (permShape a.shape p) k))) []),
           cContig := decide (a.shape.length ≤ 1),
           fContig := decide (a.shape.length ≤ 1) }
  else none

/-- numpy view with a dtype of identical itemsize: reinterpret in place,
keeping shape, elements and layout; this never fails. -/
def npViewOrder (a : NDArr) (d : Dtype) : NDArr := { a with dtype := d }

/-- Byte stream backing an array, in C enumeration order. -/
def byteStream (a : NDArr) : List Nat := (takeListC a).flatten

/-- Regrouping of a byte stream into elements of k bytes, with explicit fuel
for termination. -/
def groupBytesAux : Nat → Nat → List Nat → List (List Nat)
  | _, _, [] => []
  | 0, _, _ :: _ => []
  | fuel + 1, k, x :: xs => (x :: xs).take k :: groupBytesAux fuel k ((x :: xs).drop k)

/-- Regrouping of a byte stream into elements of k bytes. -/
def groupBytes (k : Nat) (l : List Nat) : List (List Nat) :=
  groupBytesAux l.length k l

/-- numpy view with an arbitrary dtype: with an identical itemsize it is an
in-place reinterpretation; otherwise the last axis is regrouped, which
requires at least one axis whose byte width is divisible by the new
itemsize. -/
def npViewDtype (a : NDArr) (d : Dtype) : Option NDArr :=
  if a.dtype.itemsize = d.itemsize then some { a with dtype := d }
  else
    match a.shape.getLast? with
    | none => none
    | some last =>
      if d.itemsize ≠ 0 ∧ (last * a.dtype.itemsize) % d.itemsize = 0 then
        some { dtype := d,
               shape := a.shape.dropLast ++ [last * a.dtype.itemsize / d.itemsize],
               elems := groupBytes d.itemsize (byteStream a),
               cContig := a.cContig, fContig := a.fContig }
      else none

/-- Array metadata consumed read-only by the codecs (CoreArrayMetadata in
zarrita.array, outside src; the two fields the codecs read are the chunk
shape and the declared data type, per the spec's data model). -/
structure CoreArrayMetadata where
  chunk_shape : List Nat
  data_type : Dtype
deriving DecidableEq

/-- Selection passed through the chain; the codecs in src ignore it. -/
abbrev Selection := List (Nat × Nat)

/-- Configuration record of the endian codec (src lines 94 to 96). -/
structure EndianCodecConfigurationMetadata where
  endian : ByteOrder
deriving DecidableEq

/-- EndianCodecMetadata._get_byteorder (src lines 104 to 112): the dtype's
explicit order character if set, else sys.byteorder. -/
def get_byteorder (host : ByteOrder) (array : NDArr) : ByteOrder :=
  match array.dtype.flag with
  | .lt => .little
  | .gt => .big
  | _ => host

/-- Body of EndianCodecMetadata.decode (src lines 114 to 124): on a
configuration/current mismatch, view the chunk under
chunk.dtype.newbyteorder(byteorder), where byteorder is the chunk's current
effective order. -/
def endianDecodeArr (host : ByteOrder) (cfg : EndianCodecConfigurationMetadata)
    (chunk : NDArr) : NDArr :=
  let byteorder := get_byteorder host chunk
  if cfg.endian ≠ byteorder then npViewOrder chunk (chunk.dtype.newbyteorder byteorder)
  else chunk

/-- Body of EndianCodecMetadata.encode (src lines 126 to 136), textually
identical to the decode body. -/
def endianEncodeArr (host : ByteOrder) (cfg : EndianCodecConfigurationMetadata)
    (chunk : NDArr) : NDArr :=
  let byteorder := get_byteorder host chunk
  if cfg.endian ≠ byteorder then npViewOrder chunk (chunk.dtype.newbyteorder byteorder)
  else chunk

/-- Order field of the transpose codec configuration: either an explicit
axis permutation tuple or a named layout order (src lines 139 to 141). -/
inductive TransposeOrder where
  | perm (p : List Nat)
  | order (o : MemOrder)
deriving DecidableEq

/-- Configuration record of the transpose codec. -/
structure TransposeCodecConfigurationMetadata where
  order : TransposeOrder
deriving DecidableEq

/-- Body of TransposeCodecMetadata.decode (src lines 149 to 165): view the
chunk under the metadata's declared dtype, then, for a permutation tuple,
transpose directly (the source performs no reshape first); for a named
order, reshape into the chunk shape in that order. -/
def transposeDecodeArr (cfg : TransposeOrder) (md : CoreArrayMetadata)
    (chunk : NDArr) : Option NDArr :=
  match npViewDtype chunk md.data_type with
  | none => none
  | some c =>
    match cfg with
    | .perm p => npTranspose c p
    | .order o => npReshape o c md.chunk_shape

/-- Modelled from the spec: section 4.4 describes the decode path for an
explicit axis permutation as first reshaping the flat buffer into the
chunk's native C-order shape and then applying the permutation via a
transpose; stated here only for comparison with the source body above. -/
def transposeDecodeSpec (cfg : TransposeOrder) (md : CoreArrayMetadata)
    (chunk : NDArr) : Option NDArr :=
  match npViewDtype chunk md.data_type with
  | none => none
  | some c =>
    match cfg with
    | .perm p => (npReshape .C c md.chunk_shape).bind (fun r => npTranspose r p)
    | .order o => npReshape o c md.chunk_shape

/-- Body of TransposeCodecMetadata.encode (src lines 167 to 179): for a
permutation tuple, reshape(-1, order=C) over the chunk exactly as given;
for a named order, reshape(-1, order=that order). -/
def transposeEncodeArr (cfg : TransposeOrder) (chunk : NDArr) : Option NDArr :=
  match cfg with
  | .perm _ => npReshape .C chunk [chunk.numel]
  | .order o => npReshape o chunk [chunk.numel]

/-- Lazy chunk value (zarrita.value_handle, outside src): exactly one of
absent, raw bytes, or a typed array view. -/
inductive ValueHandle where
  | noneHandle
  | bufferHandle (buf : List Nat)
  | arrayHandle (array : NDArr)
deriving DecidableEq

/-- Single-byte unsigned dtype, the element type under which a raw buffer is
viewed when a typed array is demanded of it. -/
def uint8 : Dtype := { kind := "u1", itemsize := 1, flag := .ignore }

/-- Modelled from the spec: value_handle.py is not under src; per section 3,
tobytes of an absent handle signals absence, of a buffer is the identity,
and of an array reinterprets the contiguous backing memory as raw bytes. -/
def ValueHandle.tobytes : ValueHandle → Option (List Nat)
  | .noneHandle => none
  | .bufferHandle buf => some buf
  | .arrayHandle array => some (byteStream array)

/-- Modelled from the spec: value_handle.py is not under src; per sections 3
and 4.4, toarray of an absent handle signals absence, of an array is the
identity, and of a buffer yields the flat one-dimensional byte array over
the raw bytes. -/
def ValueHandle.toarray : ValueHandle → Option NDArr
  | .noneHandle => none
  | .arrayHandle array => some array
  | .bufferHandle buf =>
      some { dtype := uint8, shape := [buf.length],
             elems := buf.map (fun x => [x]), cContig := true, fContig := true }

/-- Decorator _needs_bytes (src lines 16 to 30): convert the handle to
bytes, short-circuiting to a NoneHandle on absence without invoking the
wrapped body; the Option layer carries exceptions raised by the body. -/
def needs_bytes (f : List Nat → Selection → CoreArrayMetadata → Option ValueHandle)
    (value : ValueHandle) (selection : Selection)
    (array_metadata : CoreArrayMetadata) : Option ValueHandle :=
  match value.tobytes with
  | none => some .noneHandle
  | some buf => f buf selection array_metadata

/-- Decorator _needs_array (src lines 33 to 47): convert the handle to an
array, short-circuiting to a NoneHandle on absence without invoking the
wrapped body. -/
def needs_array (f : NDArr → Selection → CoreArrayMetadata → Option ValueHandle)
    (value : ValueHandle) (selection : Selection)
    (array_metadata : CoreArrayMetadata) : Option ValueHandle :=
  match value.toarray with
  | none => some .noneHandle
  | some array => f array selection array_metadata

/-- Configuration record of the blosc codec (src lines 50 to 55); the cname
and shuffle fields are only Literal-annotated strings in the source, with no
runtime validation, so they are modelled as plain strings. -/
structure BloscCodecConfigurationMetadata where
  cname : String
  clevel : Int
  shuffle : String
  blocksize : Int
deriving DecidableEq

/-- Metadata record of the blosc codec (src lines 58 to 61). -/
structure BloscCodecMetadata where
  configuration : BloscCodecConfigurationMetadata
  name : String := "blosc"
deriving DecidableEq

/-- Configuration handed to the numcodecs Blosc backend, with the shuffle
mode already mapped to its integer code. -/
structure BloscNativeConfig where
  cname : String
  clevel : Int
  shuffle : Nat
  blocksize : Int
deriving DecidableEq

/-- Dictionary map_shuffle_str_to_int of _get_blosc_codec; a lookup of any
other key raises a KeyError, modelled as none. -/
def mapShuffleStrToInt (s : String) : Option Nat :=
  if s = "noshuffle" then some 0
  else if s = "shuffle" then some 1
  else if s = "bitshuffle" then some 2
  else none

/-- BloscCodecMetadata._get_blosc_codec (src lines 63 to 71): translate the
shuffle string through the dictionary and hand every other field, the cname
included, unvalidated to Blosc.from_config. -/
def get_blosc_codec (m : BloscCodecMetadata) : Option BloscNativeConfig :=
  (mapShuffleStrToInt m.configuration.shuffle).map
    (fun sh => { cname := m.configuration.cname, clevel := m.configuration.clevel,
                 shuffle := sh, blocksize := m.configuration.blocksize })

/-- Configuration record of the gzip codec (src lines 182 to 184). -/
structure GzipCodecConfigurationMetadata where
  level : Int
deriving DecidableEq

/-- Metadata record of the gzip codec (src lines 187 to 190). -/
structure GzipCodecMetadata where
  configuration : GzipCodecConfigurationMetadata
  name : String := "gzip"
deriving DecidableEq

/-- Metadata record of the endian codec (src lines 99 to 102). -/
structure EndianCodecMetadata where
  configuration : EndianCodecConfigurationMetadata
  name : String := "endian"
deriving DecidableEq

/-- Metadata record of the transpose codec (src lines 144 to 147). -/
structure TransposeCodecMetadata where
  configuration : TransposeCodecConfigurationMetadata
  name : String := "transpose"
deriving DecidableEq

/-- Abstract compression backends (the numcodecs Blosc and GZip classes,
external third-party code): byte transforms parameterized by the native
configuration; round-trip theorems take their exact-inverse law as a
hypothesis. -/
structure CompressionBackend where
  bloscEnc : BloscNativeConfig → List Nat → List Nat
  bloscDec : BloscNativeConfig → List Nat → List Nat
  gzipEnc : Int → List Nat → List Nat
  gzipDec : Int → List Nat → List Nat

/-- numpy copy with order K (src line 90): materializes a contiguous buffer
holding the same elements; the model tracks logical content, so only the
contiguity flags change. -/
def npCopyK (chunk : NDArr) : NDArr :=
  { chunk with cContig := true, fContig := decide (chunk.shape.length ≤ 1) }

/-- Contiguity guard of BloscCodecMetadata.encode (src lines 89 to 90): copy
the chunk when it is neither C-contiguous nor F-contiguous. -/
def bloscPrep (chunk : NDArr) : NDArr :=
  if !chunk.cContig && !chunk.fContig then npCopyK chunk else chunk

/-- BloscCodecMetadata.decode (src lines 73 to 80). -/
def bloscDecode (bk : CompressionBackend) (m : BloscCodecMetadata) :
    ValueHandle → Selection → CoreArrayMetadata → Option ValueHandle :=
  needs_bytes (fun buf _ _ =>
    (get_blosc_codec m).map (fun c => .bufferHandle (bk.bloscDec c buf)))

/-- BloscCodecMetadata.encode (src lines 82 to 91): after the contiguity
guard, the blosc backend compresses the bytes backing the chunk. -/
def bloscEncode (bk : CompressionBackend) (m : BloscCodecMetadata) :
    ValueHandle → Selection → CoreArrayMetadata → Option ValueHandle :=
  needs_array (fun chunk _ _ =>
    (get_blosc_codec m).map (fun c =>
      .bufferHandle (bk.bloscEnc c (byteStream (bloscPrep chunk)))))

/-- GzipCodecMetadata.decode (src lines 192 to 199). -/
def gzipDecode (bk : CompressionBackend) (m : GzipCodecMetadata) :
    ValueHandle → Selection → CoreArrayMetadata → Option ValueHandle :=
  needs_bytes (fun buf _ _ =>
    some (.bufferHandle (bk.gzipDec m.configuration.level buf)))

/-- GzipCodecMetadata.encode (src lines 201 to 208). -/
def gzipEncode (bk : CompressionBackend) (m : GzipCodecMetadata) :
    ValueHandle → Selection → CoreArrayMetadata → Option ValueHandle :=
  needs_bytes (fun buf _ _ =>
    some (.bufferHandle (bk.gzipEnc m.configuration.level buf)))

/-- EndianCodecMetadata.decode, decorated (src lines 114 to 124). -/
def endianDecode (host : ByteOrder) (m : EndianCodecMetadata) :
    ValueHandle → Selection → CoreArrayMetadata → Option ValueHandle :=
  needs_array (fun chunk _ _ =>
    some (.arrayHandle (endianDecodeArr host m.configuration chunk)))

/-- EndianCodecMetadata.encode, decorated (src lines 126 to 136). -/
def endianEncode (host : ByteOrder) (m : EndianCodecMetadata) :
    ValueHandle → Selection → CoreArrayMetadata → Option ValueHandle :=
  needs_array (fun chunk _ _ =>
    some (.arrayHandle (endianEncodeArr host m.configuration chunk)))

/-- TransposeCodecMetadata.decode, decorated (src lines 149 to 165). -/
def transposeDecode (m : TransposeCodecMetadata) :
    ValueHandle → Selection → CoreArrayMetadata → Option ValueHandle :=
  needs_array (fun chunk _ md =>
    (transposeDecodeArr m.configuration.order md chunk).map .arrayHandle)

/-- TransposeCodecMetadata.encode, decorated (src lines 167 to 179). -/
def transposeEncode (m : TransposeCodecMetadata) :
    ValueHandle → Selection → CoreArrayMetadata → Option ValueHandle :=
  needs_array (fun chunk _ _ =>
    (transposeEncodeArr m.configuration.order chunk).map .arrayHandle)

/-- Discriminated union CodecMetadata (src lines 211 to 217); the recursive
sharding member lives in zarrita.sharding, outside src, and is modelled
separately for the construction claims. -/
inductive CodecMetadata where
  | blosc (m : BloscCodecMetadata)
  | endian (m : EndianCodecMetadata)
  | transpose (m : TransposeCodecMetadata)
  | gzip (m : GzipCodecMetadata)
deriving DecidableEq

/-- Decode dispatch over the codec union. -/
def codecDecode (bk : CompressionBackend) (host : ByteOrder) :
    CodecMetadata → ValueHandle → Selection → CoreArrayMetadata → Option ValueHandle
  | .blosc m => bloscDecode bk m
  | .endian m => endianDecode host m
  | .transpose m => transposeDecode m
  | .gzip m => gzipDecode bk m

/-- Encode dispatch over the codec union. -/
def codecEncode (bk : CompressionBackend) (host : ByteOrder) :
    CodecMetadata → ValueHandle → Selection → CoreArrayMetadata → Option ValueHandle
  | .blosc m => bloscEncode bk m
  | .endian m => endianEncode host m
  | .transpose m => transposeEncode m
  | .gzip m => gzipEncode bk m

/-- Modelled from the spec: the chain executor of section 4.5 lives outside
src; encode runs the declared codec list in order, threading each stage's
handle into the next and letting exceptions propagate. -/
def chainEncode (bk : CompressionBackend) (host : ByteOrder)
    (codecs : List CodecMetadata) (value : ValueHandle) (selection : Selection)
    (md : CoreArrayMetadata) : Option ValueHandle :=
  codecs.foldl (fun acc c => acc.bind (fun v => codecEncode bk host c v selection md))
    (some value)

/-- Modelled from the spec: the chain executor of section 4.5 runs decode in
reverse declaration order. -/
def chainDecode (bk : CompressionBackend) (host : ByteOrder)
    (codecs : List CodecMetadata) (value : ValueHandle) (selection : Selection)
    (md : CoreArrayMetadata) : Option ValueHandle :=
  codecs.reverse.foldl
    (fun acc c => acc.bind (fun v => codecDecode bk host c v selection md))
    (some value)

/-- Factory blosc_codec (src lines 220 to 230): builds the metadata record
verbatim, with no validation of any field. -/
def blosc_codec (cname : String) (clevel : Int) (shuffle : String)
    (blocksize : Int) : BloscCodecMetadata :=
  { configuration :=
      { cname := cname, clevel := clevel, shuffle := shuffle, blocksize := blocksize } }

/-- Factory endian_codec (src lines 233 to 234). -/
def endian_codec (endian : ByteOrder) : EndianCodecMetadata :=
  { configuration := { endian := endian } }

/-- Factory transpose_codec (src lines 237 to 242). -/
def transpose_codec (order : TransposeOrder) : TransposeCodecMetadata :=
  { configuration := { order := order } }

/-- Factory gzip_codec (src lines 245 to 246). -/
def gzip_codec (level : Int) : GzipCodecMetadata :=
  { configuration := { level := level } }

/-- Sharding codec configuration (zarrita.sharding, outside src): the chunk
shape plus the codec list, the latter held as a reference into the Python
list heap so that sharing of the default argument is observable. -/
structure ShardingCodecConfigurationMetadata where
  chunk_shape : List Nat
  codecsRef : Nat
deriving DecidableEq

/-- Sharding codec metadata record (zarrita.sharding, outside src). -/
structure ShardingCodecMetadata where
  configuration : ShardingCodecConfigurationMetadata
deriving DecidableEq

/-- Python heap of list objects, for observing aliasing of the mutable
default argument of sharding_codec. -/
structure PyState where
  lists : List (List CodecMetadata)
deriving DecidableEq

/-- Reading a list object through its reference. -/
def readCodecList (st : PyState) (r : Nat) : List CodecMetadata :=
  st.lists.getD r []

/-- In-place list.append through a reference, the only mutation a caller
could perform on a received codec list. -/
def appendCodec (st : PyState) (r : Nat) (c : CodecMetadata) : PyState :=
  { lists := st.lists.set r (readCodecList st r ++ [c]) }

/-- Python evaluates a default argument expression once, when the def
statement runs: importing the module allocates the single empty list of
sharding_codec's codecs default (src line 250). -/
def moduleInitState : PyState := { lists := [[]] }

/-- Reference to the one default list allocated at module import. -/
def shardingDefaultRef : Nat := 0

/-- Factory sharding_codec (src lines 249 to 254), at Python-semantics
level: an omitted codecs argument means the single default list object, not
a fresh one; the function allocates nothing. -/
def sharding_codec (st : PyState) (chunk_shape : List Nat)
    (codecs : Option Nat) : ShardingCodecMetadata × PyState :=
  match codecs with
  | some r => ({ configuration := { chunk_shape := chunk_shape, codecsRef := r } }, st)
  | none =>
      ({ configuration :=
           { chunk_shape := chunk_shape, codecsRef := shardingDefaultRef } }, st)

/-- Identity compression backend, used to instantiate backend-quantified
theorems at a concrete witness. -/
def idBackend : CompressionBackend :=
  { bloscEnc := fun _ b => b, bloscDec := fun _ b => b,
    gzipEnc := fun _ b => b, gzipDec := fun _ b => b }

/-- Concrete sample: a 2 by 3 array of one-byte unsigned elements 0..5 in
native enumeration. -/
def sample23 : NDArr :=
  { dtype := uint8, shape := [2, 3],
    elems := [[0], [1], [2], [3], [4], [5]], cContig := true, fContig := true }

/-- Concrete sample: the flat 6-byte buffer viewed as one-byte elements,
the shape a decoded buffer has before the transpose codec reshapes it. -/
def sampleFlat6 : NDArr :=
  { dtype := uint8, shape := [6],
    elems := [[0], [1], [2], [3], [4], [5]], cContig := true, fContig := true }

/-- Concrete sample: the same flat buffer but under a signed one-byte dtype,
to observe the transpose codec's re-view under the metadata dtype. -/
def sampleFlat6i : NDArr :=
  { dtype := { kind := "i1", itemsize := 1, flag := .ignore }, shape := [6],
    elems := [[0], [1], [2], [3], [4], [5]], cContig := true, fContig := true }

/-- Concrete sample metadata: chunk shape 2 by 3, one-byte unsigned dtype. -/
def md23 : CoreArrayMetadata := { chunk_shape := [2, 3], data_type := uint8 }

/-- Concrete sample: a little 4-byte integer array whose dtype carries the
native byte-order character. -/
def sampleI4 : NDArr :=
  { dtype := { kind := "i4", itemsize := 4, flag := .native }, shape := [2],
    elems := [[1, 0, 0, 0], [2, 0, 0, 0]], cContig := true, fContig := true }

/-! Helper lemmas about list indexing and mixed-radix coordinates. -/

theorem map_range_getD {α : Type} (l : List α) (d : α) :
    (List.range l.length).map (fun k => l.getD k d) = l := by
  induction l with
  | nil => rfl
  | cons a t ih =>
    show (List.range (t.length + 1)).map _ = _
    rw [List.range_succ_eq_map, List.map_cons, List.map_map]
    have hc : ((fun k => (a :: t).getD k d) ∘ Nat.succ) = (fun k => t.getD k d) := by
      funext k; rfl
    rw [hc, ih]
    rfl

theorem getD_map_range {α : Type} (g : Nat → α) (n j : Nat) (d : α) (h : j < n) :
    (((List.range n).map g).getD j d) = g j := by
  rw [List.getD_eq_getElem?_getD, List.getElem?_map, List.getElem?_range h]
  rfl

theorem prod_pos_head (s0 : Nat) (srest : List Nat) (k : Nat)
    (h : k < (s0 :: srest).prod) : 0 < s0 := by
  rcases Nat.eq_zero_or_pos s0 with h0 | h0
  · subst h0; simp [List.prod_cons] at h
  · exact h0

theorem idxF_coordF (s : List Nat) (k : Nat) (h : k < s.prod) :
    idxF s (coordF s k) = k := by
  induction s generalizing k with
  | nil =>
    have hk : k = 0 := Nat.lt_one_iff.mp (by simpa using h)
    subst hk; rfl
  | cons s0 srest ih =>
    have hs0 : 0 < s0 := prod_pos_head s0 srest k h
    have hdiv : k / s0 < srest.prod := by
      rw [Nat.div_lt_iff_lt_mul hs0, Nat.mul_comm]
      simpa [List.prod_cons] using h
    simp only [coordF, idxF, List.headD_cons, List.tail_cons]
    rw [ih _ hdiv, Nat.mod_add_div]

theorem coordF_forall (s : List Nat) (k : Nat) (h : k < s.prod) :
    List.Forall₂ (· < ·) (coordF s k) s := by
  induction s generalizing k with
  | nil => simp [coordF]
  | cons s0 srest ih =>
    have hs0 : 0 < s0 := prod_pos_head s0 srest k h
    have hdiv : k / s0 < srest.prod := by
      rw [Nat.div_lt_iff_lt_mul hs0, Nat.mul_comm]
      simpa [List.prod_cons] using h
    exact List.Forall₂.cons (Nat.mod_lt _ hs0) (ih _ hdiv)

theorem coordF_idxF (c s : List Nat) (h : List.Forall₂ (· < ·) c s) :
    coordF s (idxF s c) = c := by
  induction h with
  | nil => rfl
  | @cons c0 s0 crest srest hlt hrest ih =>
    have hs0 : 0 < s0 := Nat.lt_of_le_of_lt (Nat.zero_le c0) hlt
    simp only [idxF, List.headD_cons, List.tail_cons, coordF]
    rw [Nat.add_mul_mod_self_left, Nat.mod_eq_of_lt hlt,
        Nat.add_mul_div_left _ _ hs0, Nat.div_eq_of_lt hlt, Nat.zero_add, ih]

theorem idxF_lt_prod (c s : List Nat) (h : List.Forall₂ (· < ·) c s) :
    idxF s c < s.prod := by
  induction h with
  | nil => simp [idxF]
  | @cons c0 s0 crest srest hlt hrest ih =>
    simp only [idxF, List.headD_cons, List.tail_cons, List.prod_cons]
    have h1 : c0 + s0 * idxF srest crest < s0 * (idxF srest crest + 1) := by
      rw [Nat.mul_add, Nat.mul_one]
      omega
    have h2 : s0 * (idxF srest crest + 1) ≤ s0 * srest.prod :=
      Nat.mul_le_mul_left _ (Nat.succ_le_of_lt ih)
    exact Nat.lt_of_lt_of_le h1 h2

theorem coordF_length (s : List Nat) (k : Nat) : (coordF s k).length = s.length := by
  induction s generalizing k with
  | nil => rfl
  | cons s0 srest ih => simp [coordF, ih]

theorem idxC_coordC (s : List Nat) (k : Nat) (h : k < s.prod) :
    idxC s (coordC s k) = k := by
  unfold idxC coordC
  rw [List.reverse_reverse]
  exact idxF_coordF _ _ (by simpa [List.prod_reverse] using h)

theorem coordC_forall (s : List Nat) (k : Nat) (h : k < s.prod) :
    List.Forall₂ (· < ·) (coordC s k) s := by
  unfold coordC
  have hrev : List.Forall₂ (· < ·) (coordF s.reverse k) s.reverse :=
    coordF_forall _ _ (by simpa [List.prod_reverse] using h)
  simpa using List.forall₂_reverse_iff.mpr hrev

theorem idxC_lt_prod (c s : List Nat) (h : List.Forall₂ (· < ·) c s) :
    idxC s c < s.prod := by
  unfold idxC
  have : List.Forall₂ (· < ·) c.reverse s.reverse := List.forall₂_reverse_iff.mpr h
  simpa [List.prod_reverse] using idxF_lt_prod _ _ this

theorem coordC_idxC (c s : List Nat) (h : List.Forall₂ (· < ·) c s) :
    coordC s (idxC s c) = c := by
  unfold coordC idxC
  rw [coordF_idxF _ _ (List.forall₂_reverse_iff.mpr h), List.reverse_reverse]

theorem takeList_length (o : MemOrder) (a : NDArr) :
    (takeList o a).length = a.numel := by
  cases o <;> simp [takeList, takeListC, takeListF]

theorem idxC_coordF_flat (n m : Nat) (h : m < n) : idxC [n] (coordF [n] m) = m := by
  simp [coordF, idxC, idxF, Nat.mod_eq_of_lt h]

theorem idxF_coordC_flat (n k : Nat) (h : k < n) : idxF [n] (coordC [n] k) = k := by
  simp [coordC, coordF, idxF, Nat.mod_eq_of_lt h]

theorem takeListC_flat (dt : Dtype) (n : Nat) (e : List (List Nat)) (c f : Bool)
    (hlen : e.length = n) :
    takeListC { dtype := dt, shape := [n], elems := e, cContig := c, fContig := f } = e := by
  unfold takeListC NDArr.numel
  simp only [List.prod_singleton]
  subst hlen
  exact map_range_getD e []

theorem takeListF_flat (dt : Dtype) (n : Nat) (e : List (List Nat)) (c f : Bool)
    (hlen : e.length = n) :
    takeListF { dtype := dt, shape := [n], elems := e, cContig := c, fContig := f } = e := by
  unfold takeListF NDArr.numel
  simp only [List.prod_singleton]
  have hcong : ∀ m ∈ List.range n,
      e.getD (idxC [n] (coordF [n] m)) [] = e.getD m [] := by
    intro m hm
    rw [idxC_coordF_flat n m (List.mem_range.mp hm)]
  rw [List.map_congr_left hcong]
  subst hlen
  exact map_range_getD e []

theorem takeList_flat (o : MemOrder) (dt : Dtype) (n : Nat) (e : List (List Nat))
    (c f : Bool) (hlen : e.length = n) :
    takeList o { dtype := dt, shape := [n], elems := e, cContig := c, fContig := f } = e := by
  cases o
  · exact takeListC_flat dt n e c f hlen
  · exact takeListF_flat dt n e c f hlen

theorem placeListF_flat (n : Nat) (l : List (List Nat)) (hlen : l.length = n) :
    placeListF [n] l = l := by
  unfold placeListF
  simp only [List.prod_singleton]
  have hcong : ∀ k ∈ List.range n, l.getD (idxF [n] (coordC [n] k)) [] = l.getD k [] := by
    intro k hk
    rw [idxF_coordC_flat n k (List.mem_range.mp hk)]
  rw [List.map_congr_left hcong]
  subst hlen
  exact map_range_getD l []

theorem place_take_F (x : NDArr) (s : List Nat) (hs : x.shape = s)
    (hlen : x.elems.length = s.prod) :
    placeListF s (takeListF x) = x.elems := by
  unfold placeListF takeListF
  have hnumel : x.numel = s.prod := by unfold NDArr.numel; rw [hs]
  have hcong : ∀ k ∈ List.range s.prod,
      ((List.range x.numel).map
        (fun m => x.elems.getD (idxC x.shape (coordF x.shape m)) [])).getD
          (idxF s (coordC s k)) []
        = x.elems.getD k [] := by
    intro k hk
    have hk2 : k < s.prod := List.mem_range.mp hk
    have hvalid : List.Forall₂ (· < ·) (coordC s k) s := coordC_forall s k hk2
    have hj : idxF s (coordC s k) < x.numel := by
      rw [hnumel]
      exact idxF_lt_prod (coordC s k) s hvalid
    rw [getD_map_range _ _ _ _ hj]
    rw [hs]
    rw [coordF_idxF (coordC s k) s hvalid]
    rw [idxC_coordC s k hk2]
  rw [List.map_congr_left hcong]
  rw [hlen.symm]
  exact map_range_getD x.elems []

theorem takeListC_self (x : NDArr) (hlen : x.elems.length = x.shape.prod) :
    takeListC x = x.elems := by
  unfold takeListC NDArr.numel
  rw [← hlen]
  exact map_range_getD x.elems []

theorem npReshape_flat (o : MemOrder) (chunk : NDArr) :
    npReshape o chunk [chunk.numel] =
      some { dtype := chunk.dtype, shape := [chunk.numel], elems := takeList o chunk,
             cContig := true, fContig := true } := by
  have hprod : ([chunk.numel] : List Nat).prod = chunk.shape.prod := by
    simp [NDArr.numel]
  have hplace : placeList o [chunk.numel] (takeList o chunk) = takeList o chunk := by
    cases o
    · rfl
    · exact placeListF_flat _ _ (takeList_length .F chunk)
  unfold npReshape
  rw [if_pos hprod]
  rw [show contigFlags [chunk.numel] o = (true, true) from by simp [contigFlags]]
  rw [hplace]

theorem get_byteorder_view_current (host : ByteOrder) (a : NDArr) :
    get_byteorder host (npViewOrder a (a.dtype.newbyteorder (get_byteorder host a))) =
      get_byteorder host a := by
  cases hb : get_byteorder host a <;>
    simp [npViewOrder, get_byteorder, Dtype.newbyteorder]

theorem endianEncodeArr_eq_decode : @endianEncodeArr = @endianDecodeArr := rfl

theorem endianDecodeArr_props (host : ByteOrder)
    (cfg : EndianCodecConfigurationMetadata) (a : NDArr) :
    (endianDecodeArr host cfg a).elems = a.elems ∧
    (endianDecodeArr host cfg a).shape = a.shape ∧
    get_byteorder host (endianDecodeArr host cfg a) = get_byteorder host a := by
  unfold endianDecodeArr
  by_cases hc : cfg.endian ≠ get_byteorder host a
  · rw [if_pos hc]
    exact ⟨rfl, rfl, get_byteorder_view_current host a⟩
  · rw [if_neg hc]
    exact ⟨rfl, rfl, rfl⟩

theorem codecDecode_noneHandle (bk : CompressionBackend) (host : ByteOrder)
    (c : CodecMetadata) (sel : Selection) (md : CoreArrayMetadata) :
    codecDecode bk host c .noneHandle sel md = some .noneHandle := by
  cases c <;> rfl

theorem codecEncode_noneHandle (bk : CompressionBackend) (host : ByteOrder)
    (c : CodecMetadata) (sel : Selection) (md : CoreArrayMetadata) :
    codecEncode bk host c .noneHandle sel md = some .noneHandle := by
  cases c <;> rfl

theorem foldl_stage_noneHandle
    (g : CodecMetadata → ValueHandle → Selection → CoreArrayMetadata → Option ValueHandle)
    (hg : ∀ c sel md, g c .noneHandle sel md = some .noneHandle)
    (cs : List CodecMetadata) (sel : Selection) (md : CoreArrayMetadata) :
    cs.foldl (fun acc c => acc.bind (fun v => g c v sel md))
      (some .noneHandle) = some .noneHandle := by
  induction cs with
  | nil => rfl
  | cons c t ih =>
    rw [List.foldl_cons,
      show (some ValueHandle.noneHandle).bind (fun v => g c v sel md)
          = some ValueHandle.noneHandle from hg c sel md]
    exact ih

theorem transpose_named_roundtrip (o : MemOrder) (md : CoreArrayMetadata) (x : NDArr)
    (hdt : x.dtype = md.data_type) (hsh : x.shape = md.chunk_shape)
    (hlen : x.elems.length = x.shape.prod) :
    (transposeEncodeArr (.order o) x).bind
        (fun f => transposeDecodeArr (.order o) md f) =
      some { dtype := x.dtype, shape := x.shape, elems := x.elems,
             cContig := (contigFlags x.shape o).1,
             fContig := (contigFlags x.shape o).2 } := by
  have henc : transposeEncodeArr (.order o) x = npReshape o x [x.numel] := rfl
  rw [henc, npReshape_flat o x, Option.some_bind]
  have hview : npViewDtype
      { dtype := x.dtype, shape := [x.numel], elems := takeList o x,
        cContig := true, fContig := true } md.data_type
      = some { dtype := md.data_type, shape := [x.numel], elems := takeList o x,
               cContig := true, fContig := true } := by
    unfold npViewDtype
    rw [if_pos (by rw [hdt])]
  unfold transposeDecodeArr
  rw [hview]
  have htake : takeList o
      { dtype := md.data_type, shape := [x.numel], elems := takeList o x,
        cContig := true, fContig := true } = takeList o x :=
    takeList_flat o md.data_type x.numel (takeList o x) true true (takeList_length o x)
  have hplace2 : placeList o md.chunk_shape (takeList o x) = x.elems := by
    cases o
    · exact takeListC_self x hlen
    · exact place_take_F x md.chunk_shape hsh (by rw [← hsh]; exact hlen)
  unfold npReshape
  dsimp only
  rw [if_pos (by simp [NDArr.numel, ← hsh])]
  rw [htake, hplace2, hdt, hsh]

theorem byteStream_bloscPrep (chunk : NDArr) :
    byteStream (bloscPrep chunk) = byteStream chunk ∧
    (bloscPrep chunk).elems = chunk.elems ∧
    (bloscPrep chunk).shape = chunk.shape ∧
    ((bloscPrep chunk).cContig || (bloscPrep chunk).fContig) = true := by
  cases hcc : chunk.cContig <;> cases hfc : chunk.fContig <;>
    simp [bloscPrep, npCopyK, hcc, hfc, byteStream, takeListC, NDArr.numel]

theorem npViewDtype_dtype (a : NDArr) (d : Dtype) (c : NDArr)
    (h : npViewDtype a d = some c) : c.dtype = d := by
  unfold npViewDtype at h
  split at h
  · cases h; rfl
  · split at h
    · cases h
    · split at h
      · cases h; rfl
      · cases h

theorem npTranspose_dtype (a : NDArr) (p : List Nat) (r : NDArr)
    (h : npTranspose a p = some r) : r.dtype = a.dtype := by
  unfold npTranspose at h
  split at h
  · cases h; rfl
  · cases h

theorem npReshape_dtype (o : MemOrder) (a : NDArr) (s : List Nat) (r : NDArr)
    (h : npReshape o a s = some r) : r.dtype = a.dtype := by
  unfold npReshape at h
  split at h
  · cases h; rfl
  · cases h

/-- C8: with the configured byte order equal to the array's current
effective byte order, both endian codec directions return the chunk
itself, with no view taken. -/
theorem C8_endian_identity_on_match (host : ByteOrder)
    (cfg : EndianCodecConfigurationMetadata) (a : NDArr)
    (h : cfg.endian = get_byteorder host a) :
    endianDecodeArr host cfg a = a ∧ endianEncodeArr host cfg a = a := by
  unfold endianDecodeArr endianEncodeArr
  rw [if_neg (not_not_intro h)]
  exact ⟨rfl, rfl⟩

/-- Witness for C8 at a concrete input: host little, native-order dtype,
configured little. -/
theorem C8_endian_identity_on_match_witness :
    ({ endian := ByteOrder.little } : EndianCodecConfigurationMetadata).endian
        = get_byteorder .little sampleI4 ∧
      (endianDecodeArr .little { endian := .little } sampleI4 = sampleI4 ∧
       endianEncodeArr .little { endian := .little } sampleI4 = sampleI4) :=
  ⟨rfl, C8_endian_identity_on_match .little { endian := .little } sampleI4 rfl⟩

/-- C1: the source passes the array's current byte order to newbyteorder
(src line 123: chunk.dtype.newbyteorder(byteorder)), so on a mismatch the
returned view keeps the current effective byte order instead of switching
to the configured one.  At host little, native-order int32 dtype and
configured endian big, both directions return a view whose effective byte
order is still little, with the bytes interpreted exactly as before. -/
theorem C1_endian_view_keeps_current_order :
    get_byteorder .little sampleI4 = .little ∧
    (endian_codec .big).configuration.endian = .big ∧
    endianDecodeArr .little (endian_codec .big).configuration sampleI4
      = npViewOrder sampleI4 (sampleI4.dtype.newbyteorder .little) ∧
    get_byteorder .little
        (endianDecodeArr .little (endian_codec .big).configuration sampleI4)
      = .little ∧
    get_byteorder .little
        (endianEncodeArr .little (endian_codec .big).configuration sampleI4)
      = .little ∧
    (endianDecodeArr .little (endian_codec .big).configuration sampleI4).elems
      = sampleI4.elems := by
  refine ⟨rfl, rfl, ?_, rfl, rfl, rfl⟩
  rfl

/-- C2: the decode body applies transpose directly to the flat
one-dimensional view without first reshaping into the chunk shape
(src lines 156 to 165 contain no reshape in the tuple branch), so a
two-axis permutation fails on the flat buffer where the spec's
reshape-then-transpose reading produces the 3 by 2 view. -/
theorem C2_transpose_decode_misses_reshape :
    transposeDecodeArr (.perm [1, 0]) md23 sampleFlat6 = none ∧
    transposeDecodeSpec (.perm [1, 0]) md23 sampleFlat6
      = some { dtype := uint8, shape := [3, 2],
               elems := [[0], [3], [1], [4], [2], [5]],
               cContig := false, fContig := false } := by
  decide

/-- C4: the transpose codec's encode always produces the flat
one-dimensional buffer; under a permutation configuration it flattens the
chunk exactly as handed in, in row-major order, ignoring the permutation
(the same result as a named C order); under a named order it flattens in
that order. -/
theorem C4_transpose_encode_flattening (p : List Nat) (o : MemOrder)
    (chunk : NDArr) :
    transposeEncodeArr (.perm p) chunk
      = some { dtype := chunk.dtype, shape := [chunk.numel],
               elems := takeListC chunk, cContig := true, fContig := true } ∧
    transposeEncodeArr (.order o) chunk
      = some { dtype := chunk.dtype, shape := [chunk.numel],
               elems := takeList o chunk, cContig := true, fContig := true } ∧
    transposeEncodeArr (.perm p) chunk = transposeEncodeArr (.order .C) chunk :=
  ⟨npReshape_flat .C chunk, npReshape_flat o chunk, rfl⟩

/-- C5 counterexample: constructing a blosc codec with an unrecognized
algorithm name does not fail; the factory returns the metadata record with
the bogus name stored, and even materializing the backend configuration at
first use passes the name through unvalidated. -/
theorem C5_unrecognized_cname_constructs :
    blosc_codec "definitely-not-a-codec" 5 "noshuffle" 0
      = { configuration := { cname := "definitely-not-a-codec", clevel := 5,
                             shuffle := "noshuffle", blocksize := 0 },
          name := "blosc" } ∧
    get_blosc_codec (blosc_codec "definitely-not-a-codec" 5 "noshuffle" 0)
      = some { cname := "definitely-not-a-codec", clevel := 5, shuffle := 0,
               blocksize := 0 } :=
  ⟨rfl, rfl⟩

/-- C5 amended: blosc_codec validates nothing and always succeeds, storing
every field verbatim; the only runtime check happens when the codec is
materialized at first encode or decode, where the shuffle string is mapped
through a dictionary (an unknown shuffle raises KeyError there) while the
algorithm name is passed to the backend unvalidated. -/
theorem C5_construction_never_validates (cname : String) (clevel : Int)
    (shuffle : String) (blocksize : Int) :
    blosc_codec cname clevel shuffle blocksize
      = { configuration := { cname := cname, clevel := clevel,
                             shuffle := shuffle, blocksize := blocksize },
          name := "blosc" } ∧
    get_blosc_codec (blosc_codec cname clevel shuffle blocksize)
      = (mapShuffleStrToInt shuffle).map
          (fun sh => { cname := cname, clevel := clevel, shuffle := sh,
                       blocksize := blocksize }) :=
  ⟨rfl, rfl⟩

/-- C3 counterexample: for the transpose codec configured with the explicit
axis permutation (1, 0) and chunk shape (2, 3), encode of the concrete
2 by 3 array succeeds but decode of its output raises (the transpose is
applied to the flat buffer), so decode after encode does not reproduce the
input. -/
theorem C3_roundtrip_fails_on_permutation :
    (transposeEncodeArr (.perm [1, 0]) sample23).bind
        (fun f => transposeDecodeArr (.perm [1, 0]) md23 f) = none ∧
    (none : Option NDArr) ≠ some sample23 := by
  refine ⟨by decide, by decide⟩

/-- C3 amended: the round trip holds for the endian codec (element values,
shape and effective byte order are preserved, the dtype possibly becoming
an explicit spelling of the same order), for the transpose codec with a
named C or F order (exactly, on inputs matching the metadata dtype and
chunk shape), and for the gzip and blosc codecs at byte level whenever the
backend decompressor inverts the compressor; it fails for the transpose
codec under an explicit axis permutation of rank at least two, whose
decode raises. -/
theorem C3_roundtrip_amended :
    (∀ (host : ByteOrder) (cfg : EndianCodecConfigurationMetadata) (a : NDArr),
      (endianDecodeArr host cfg (endianEncodeArr host cfg a)).elems = a.elems ∧
      (endianDecodeArr host cfg (endianEncodeArr host cfg a)).shape = a.shape ∧
      get_byteorder host (endianDecodeArr host cfg (endianEncodeArr host cfg a))
        = get_byteorder host a) ∧
    (∀ (o : MemOrder) (md : CoreArrayMetadata) (x : NDArr),
      x.dtype = md.data_type → x.shape = md.chunk_shape →
      x.elems.length = x.shape.prod →
      ∃ r, (transposeEncodeArr (.order o) x).bind
          (fun f => transposeDecodeArr (.order o) md f) = some r ∧
        r.dtype = x.dtype ∧ r.shape = x.shape ∧ r.elems = x.elems) ∧
    (∀ (bk : CompressionBackend),
      (∀ c b, bk.bloscDec c (bk.bloscEnc c b) = b) →
      (∀ lvl b, bk.gzipDec lvl (bk.gzipEnc lvl b) = b) →
      ∀ (m : BloscCodecMetadata) (g : GzipCodecMetadata) (sel : Selection)
        (md : CoreArrayMetadata) (v : ValueHandle) (b : List Nat) (a : NDArr),
        (v.tobytes = some b →
          (gzipEncode bk g v sel md).bind
            (fun w => gzipDecode bk g w sel md) = some (.bufferHandle b)) ∧
        ((get_blosc_codec m).isSome →
          (bloscEncode bk m (.arrayHandle a) sel md).bind
            (fun w => bloscDecode bk m w sel md)
            = some (.bufferHandle (byteStream a)))) := by
  refine ⟨?_, ?_, ?_⟩
  · intro host cfg a
    obtain ⟨he1, he2, he3⟩ := endianDecodeArr_props host cfg a
    have henc := endianDecodeArr_props host cfg (endianEncodeArr host cfg a)
    rw [endianEncodeArr_eq_decode] at *
    exact ⟨henc.1.trans he1, henc.2.1.trans he2, henc.2.2.trans he3⟩
  · intro o md x hdt hsh hlen
    exact ⟨_, transpose_named_roundtrip o md x hdt hsh hlen, rfl, rfl, rfl⟩
  · intro bk hblosc hgzip m g sel md v b a
    constructor
    · intro hv
      unfold gzipEncode gzipDecode needs_bytes
      rw [hv]
      simp [ValueHandle.tobytes, hgzip]
    · intro hm
      obtain ⟨c, hc⟩ := Option.isSome_iff_exists.mp hm
      unfold bloscEncode bloscDecode needs_array needs_bytes
      simp only [ValueHandle.toarray, hc, Option.map_some']
      simp only [Option.some_bind, ValueHandle.tobytes, Option.map_some']
      rw [(byteStream_bloscPrep a).1, hblosc]

/-- Witness for C3 at concrete inputs: the 2 by 3 sample through the F
order transpose round trip, and byte buffers through gzip and blosc over
the identity backend. -/
theorem C3_roundtrip_amended_witness :
    (∃ r, (transposeEncodeArr (.order .F) sample23).bind
        (fun f => transposeDecodeArr (.order .F) md23 f) = some r ∧
      r.dtype = sample23.dtype ∧ r.shape = sample23.shape ∧
      r.elems = sample23.elems) ∧
    ((ValueHandle.bufferHandle [9, 9]).tobytes = some [9, 9]) ∧
    ((gzipEncode idBackend (gzip_codec 5) (.bufferHandle [9, 9]) [] md23).bind
        (fun w => gzipDecode idBackend (gzip_codec 5) w [] md23)
      = some (.bufferHandle [9, 9])) ∧
    ((get_blosc_codec (blosc_codec "zstd" 5 "noshuffle" 0)).isSome = true) ∧
    ((bloscEncode idBackend (blosc_codec "zstd" 5 "noshuffle" 0)
          (.arrayHandle sample23) [] md23).bind
        (fun w => bloscDecode idBackend (blosc_codec "zstd" 5 "noshuffle" 0)
          w [] md23)
      = some (.bufferHandle (byteStream sample23))) :=
  ⟨C3_roundtrip_amended.2.1 .F md23 sample23 rfl rfl (by decide),
   rfl,
   (C3_roundtrip_amended.2.2 idBackend (fun _ _ => rfl) (fun _ _ => rfl)
      (blosc_codec "zstd" 5 "noshuffle" 0) (gzip_codec 5) [] md23
      (.bufferHandle [9, 9]) [9, 9] sample23).1 rfl,
   rfl,
   (C3_roundtrip_amended.2.2 idBackend (fun _ _ => rfl) (fun _ _ => rfl)
      (blosc_codec "zstd" 5 "noshuffle" 0) (gzip_codec 5) [] md23
      (.bufferHandle [9, 9]) [9, 9] sample23).2 rfl⟩

/-- C6: an Empty handle short-circuits both decorators and so every codec
in both directions, without the wrapped transform body being invoked (the
statement quantifies over arbitrary bodies), and an Empty input to the
chain executor yields an Empty final result with no stage raising. -/
theorem C6_empty_propagation :
    (∀ (f : List Nat → Selection → CoreArrayMetadata → Option ValueHandle)
        (sel : Selection) (md : CoreArrayMetadata),
      needs_bytes f .noneHandle sel md = some .noneHandle) ∧
    (∀ (f : NDArr → Selection → CoreArrayMetadata → Option ValueHandle)
        (sel : Selection) (md : CoreArrayMetadata),
      needs_array f .noneHandle sel md = some .noneHandle) ∧
    (∀ (bk : CompressionBackend) (host : ByteOrder) (c : CodecMetadata)
        (sel : Selection) (md : CoreArrayMetadata),
      codecDecode bk host c .noneHandle sel md = some .noneHandle ∧
      codecEncode bk host c .noneHandle sel md = some .noneHandle) ∧
    (∀ (bk : CompressionBackend) (host : ByteOrder) (cs : List CodecMetadata)
        (sel : Selection) (md : CoreArrayMetadata),
      chainDecode bk host cs .noneHandle sel md = some .noneHandle ∧
      chainEncode bk host cs .noneHandle sel md = some .noneHandle) := by
  refine ⟨fun f sel md => rfl, fun f sel md => rfl,
    fun bk host c sel md =>
      ⟨codecDecode_noneHandle bk host c sel md,
       codecEncode_noneHandle bk host c sel md⟩,
    fun bk host cs sel md => ⟨?_, ?_⟩⟩
  · exact foldl_stage_noneHandle (codecDecode bk host)
      (fun c sel2 md2 => codecDecode_noneHandle bk host c sel2 md2) cs.reverse sel md
  · exact foldl_stage_noneHandle (codecEncode bk host)
      (fun c sel2 md2 => codecEncode_noneHandle bk host c sel2 md2) cs sel md

/-- C7: both compression codecs compress exactly the bytes of the chunk
they were handed: the blosc encoder, after its contiguity guard (which
changes nothing but the layout flags), passes the chunk's backing bytes to
the backend, and the gzip encoder compresses the handle's byte conversion;
in both cases the compressed values are exactly those of the original
chunk. -/
theorem C7_compression_bytes_first :
    (∀ (chunk : NDArr),
      ((bloscPrep chunk).cContig || (bloscPrep chunk).fContig) = true ∧
      (bloscPrep chunk).elems = chunk.elems ∧
      (bloscPrep chunk).shape = chunk.shape ∧
      byteStream (bloscPrep chunk) = byteStream chunk) ∧
    (∀ (bk : CompressionBackend) (m : BloscCodecMetadata)
        (c : BloscNativeConfig) (a : NDArr) (sel : Selection)
        (md : CoreArrayMetadata),
      get_blosc_codec m = some c →
      bloscEncode bk m (.arrayHandle a) sel md
        = some (.bufferHandle (bk.bloscEnc c (byteStream a)))) ∧
    (∀ (bk : CompressionBackend) (g : GzipCodecMetadata) (v : ValueHandle)
        (b : List Nat) (sel : Selection) (md : CoreArrayMetadata),
      v.tobytes = some b →
      gzipEncode bk g v sel md
        = some (.bufferHandle (bk.gzipEnc g.configuration.level b))) := by
  refine ⟨fun chunk => ?_, fun bk m c a sel md h => ?_,
    fun bk g v b sel md h => ?_⟩
  · obtain ⟨h1, h2, h3, h4⟩ := byteStream_bloscPrep chunk
    exact ⟨h4, h2, h3, h1⟩
  · unfold bloscEncode needs_array
    simp only [ValueHandle.toarray, h, Option.map_some']
    rw [(byteStream_bloscPrep a).1]
  · unfold gzipEncode needs_bytes
    rw [h]

/-- Witness for C7 at concrete inputs over the identity backend. -/
theorem C7_compression_bytes_first_witness :
    get_blosc_codec (blosc_codec "zstd" 5 "noshuffle" 0)
        = some { cname := "zstd", clevel := 5, shuffle := 0, blocksize := 0 } ∧
    bloscEncode idBackend (blosc_codec "zstd" 5 "noshuffle" 0)
        (.arrayHandle sample23) [] md23
      = some (.bufferHandle (byteStream sample23)) ∧
    (ValueHandle.bufferHandle [7, 8]).tobytes = some [7, 8] ∧
    gzipEncode idBackend (gzip_codec 5) (.bufferHandle [7, 8]) [] md23
      = some (.bufferHandle [7, 8]) :=
  ⟨rfl,
   C7_compression_bytes_first.2.1 idBackend (blosc_codec "zstd" 5 "noshuffle" 0)
     { cname := "zstd", clevel := 5, shuffle := 0, blocksize := 0 }
     sample23 [] md23 rfl,
   rfl,
   C7_compression_bytes_first.2.2 idBackend (gzip_codec 5)
     (.bufferHandle [7, 8]) [7, 8] [] md23 rfl⟩

/-- C9 counterexample: two calls of sharding_codec that omit the codecs
argument hand out the same default list object, evaluated once at module
import; an append through the first call's configuration is visible when
reading through the second call's configuration, so the lists are neither
freshly constructed per call nor independent. -/
theorem C9_default_codec_list_shared :
    ((sharding_codec moduleInitState [2] none).1.configuration.codecsRef
      = (sharding_codec (sharding_codec moduleInitState [2] none).2 [3]
          none).1.configuration.codecsRef) ∧
    readCodecList
        (appendCodec
          (sharding_codec (sharding_codec moduleInitState [2] none).2 [3] none).2
          (sharding_codec moduleInitState [2] none).1.configuration.codecsRef
          (.gzip (gzip_codec 5)))
        (sharding_codec (sharding_codec moduleInitState [2] none).2 [3]
          none).1.configuration.codecsRef
      = [.gzip (gzip_codec 5)] ∧
    [CodecMetadata.gzip (gzip_codec 5)] ≠ ([] : List CodecMetadata) :=
  ⟨rfl, rfl, by decide⟩

/-- C9 amended: every call omitting the codecs argument yields a
configuration whose codec list reads as the empty sequence while nothing
mutates it, but all such calls alias the single default list object
created when the module was imported instead of freshly constructing an
empty list per call. -/
theorem C9_amended_shared_default_reads_empty (s1 s2 : List Nat) :
    (sharding_codec moduleInitState s1 none).1.configuration.codecsRef
      = shardingDefaultRef ∧
    (sharding_codec (sharding_codec moduleInitState s1 none).2 s2
        none).1.configuration.codecsRef = shardingDefaultRef ∧
    readCodecList
        (sharding_codec (sharding_codec moduleInitState s1 none).2 s2 none).2
        shardingDefaultRef = [] :=
  ⟨rfl, rfl, rfl⟩

/-- C10: whenever the transpose codec's decode succeeds, its output dtype
is the metadata's declared data type, because the body re-views the chunk
under that dtype before transposing or reshaping; a successful encode
performs no such re-view and keeps the input dtype. -/
theorem C10_transpose_decode_views_metadata_dtype (cfg : TransposeOrder)
    (md : CoreArrayMetadata) (chunk : NDArr) (r e : NDArr)
    (hdec : transposeDecodeArr cfg md chunk = some r)
    (henc : transposeEncodeArr cfg chunk = some e) :
    r.dtype = md.data_type ∧ e.dtype = chunk.dtype := by
  constructor
  · unfold transposeDecodeArr at hdec
    cases hv : npViewDtype chunk md.data_type with
    | none => rw [hv] at hdec; cases hdec
    | some c =>
      rw [hv] at hdec
      have hc : c.dtype = md.data_type := npViewDtype_dtype chunk md.data_type c hv
      cases cfg with
      | perm p => exact (npTranspose_dtype c p r hdec).trans hc
      | order o => exact (npReshape_dtype o c md.chunk_shape r hdec).trans hc
  · cases cfg with
    | perm p => exact npReshape_dtype .C chunk [chunk.numel] e henc
    | order o => exact npReshape_dtype o chunk [chunk.numel] e henc

/-- Witness for C10 at a concrete input: a flat signed-byte buffer decoded
under unsigned-byte metadata gets the metadata dtype, while encode keeps
the signed dtype. -/
theorem C10_transpose_decode_views_metadata_dtype_witness :
    transposeDecodeArr (.order .C) md23 sampleFlat6i
      = some { dtype := uint8, shape := [2, 3],
               elems := [[0], [1], [2], [3], [4], [5]],
               cContig := true, fContig := false } ∧
    transposeEncodeArr (.order .C) sampleFlat6i
      = some { dtype := { kind := "i1", itemsize := 1, flag := .ignore },
               shape := [6], elems := [[0], [1], [2], [3], [4], [5]],
               cContig := true, fContig := true } ∧
    (({ dtype := uint8, shape := [2, 3],
        elems := [[0], [1], [2], [3], [4], [5]],
        cContig := true, fContig := false } : NDArr).dtype = md23.data_type ∧
     ({ dtype := { kind := "i1", itemsize := 1, flag := .ignore },
        shape := [6], elems := [[0], [1], [2], [3], [4], [5]],
        cContig := true, fContig := true } : NDArr).dtype
       = sampleFlat6i.dtype) :=
  ⟨by decide, by decide,
   C10_transpose_decode_views_metadata_dtype (.order .C) md23 sampleFlat6i
     { dtype := uint8, shape := [2, 3],
       elems := [[0], [1], [2], [3], [4], [5]],
       cContig := true, fContig := false }
     { dtype := { kind := "i1", itemsize := 1, flag := .ignore },
       shape := [6], elems := [[0], [1], [2], [3], [4], [5]],
       cContig := true, fContig := true }
     (by decide) (by decide)⟩
